import Mathlib

/-!
Verification of the problem-formulation layer of the Optimization repository.

Each Python source file builds a mixed-integer model (variables, linear
constraints, objective) from typed input data and decodes solver values back
into domain results.  The definitions below shallowly embed those model
builders and decoders:

* `src/JobShop.py`          — disjunctive big-M job-shop scheduling model.
* `src/BudgetAllocation.py` — single-resource allocation model (priority weighted).
* `src/pages/BudgetAllocation.py` — multi-resource allocation model.
* `src/FacilityLocation.py` — uncapacitated facility-location model.
* `src/facilityLocation.py` — coverage (set-cover style) model.
* `src/ScriptsOptimization.py` — resource-usage cost model.

Solver values are modelled as rationals (reals where Euclidean geometry is
involved); integer decision variables of the models are modelled as naturals,
matching Gurobi's default lower bound of 0.
-/

namespace Optimization

/-! ### Job shop model (src/JobShop.py)

A job is an ordered list of tasks; a task is a `(machine, duration)` pair,
0-based machine index, exactly as assembled in `main` from the sidebar.
-/

/-- Horizon from `JobShop.py` line 56:
`horizon = sum(task[1] for job in jobs_data for task in job)`. -/
def horizon (jobs : List (List (Nat × Nat))) : Nat :=
  (jobs.flatten.map Prod.snd).sum

/-- Tasks assigned to machine `m`, as collected by the loops on lines 80-85:
for each job (in order), for each task (in order), keep `(job_id, task_id,
duration)` whenever the task's machine equals `m`. -/
def machineTasks (jobs : List (List (Nat × Nat))) (m : Nat) : List (Nat × Nat × Nat) :=
  (jobs.enum.map (fun jp =>
    jp.2.enum.filterMap (fun tp =>
      if tp.2.1 = m then some (jp.1, tp.1, tp.2.2) else none))).flatten

/-- Precedence constraints (lines 72-77): for each job and each pair of
consecutive tasks, `start[job, t+1] >= start[job, t] + duration[job, t]`. -/
def jobShopPrec (jobs : List (List (Nat × Nat))) (start : Nat → Nat → Nat) : Prop :=
  ∀ jid < jobs.length, ∀ tid < (jobs.getD jid []).length - 1,
    start jid tid + ((jobs.getD jid []).getD tid (0, 0)).2 ≤ start jid (tid + 1)

/-- The two big-M disjunctive constraints added for an ordered pair of tasks
`t1, t2` sharing a machine (lines 90-98), with ordering binary `z`:
`start(t1) + dur(t1) <= start(t2) + H*(1 - z)` and
`start(t2) + dur(t2) <= start(t1) + H*z`. -/
def disjPair (H : Nat) (start : Nat → Nat → Nat) (z : Nat × Nat → Nat × Nat → Bool)
    (t1 t2 : Nat × Nat × Nat) : Prop :=
  start t1.1 t1.2.1 + t1.2.2 ≤
    start t2.1 t2.2.1 + H * (1 - (if z (t1.1, t1.2.1) (t2.1, t2.2.1) then 1 else 0)) ∧
  start t2.1 t2.2.1 + t2.2.2 ≤
    start t1.1 t1.2.1 + H * (if z (t1.1, t1.2.1) (t2.1, t2.2.1) then 1 else 0)

instance (H : Nat) (start : Nat → Nat → Nat) (z : Nat × Nat → Nat × Nat → Bool)
    (t1 t2 : Nat × Nat × Nat) : Decidable (disjPair H start z t1 t2) := by
  unfold disjPair; infer_instance

/-- Disjunctive no-overlap constraints (lines 80-98): for every machine
`m < num_machines` and every index pair `i < j` into that machine's task list,
the two big-M constraints hold for one fresh ordering binary. -/
def jobShopDisj (jobs : List (List (Nat × Nat))) (numMachines : Nat)
    (start : Nat → Nat → Nat) (z : Nat × Nat → Nat × Nat → Bool) : Prop :=
  ∀ m < numMachines, ∀ j < (machineTasks jobs m).length, ∀ i < j,
    disjPair (horizon jobs) start z
      ((machineTasks jobs m).getD i (0, 0, 0)) ((machineTasks jobs m).getD j (0, 0, 0))

/-- Makespan constraints (lines 101-105): for every nonempty job,
`makespan >= start(last task) + duration(last task)`. -/
def jobShopMakespan (jobs : List (List (Nat × Nat))) (start : Nat → Nat → Nat)
    (ms : Nat) : Prop :=
  ∀ jid < jobs.length, 0 < (jobs.getD jid []).length →
    start jid ((jobs.getD jid []).length - 1) +
      ((jobs.getD jid []).getD ((jobs.getD jid []).length - 1) (0, 0)).2 ≤ ms

/-- Full constraint set of the built job-shop model: an assignment of integer
start times, binary ordering values and a makespan value satisfies the model
iff it satisfies precedence, disjunctive and makespan constraints. -/
def JobShopFeasible (jobs : List (List (Nat × Nat))) (numMachines : Nat)
    (start : Nat → Nat → Nat) (z : Nat × Nat → Nat × Nat → Bool) (ms : Nat) : Prop :=
  jobShopPrec jobs start ∧ jobShopDisj jobs numMachines start z ∧
    jobShopMakespan jobs start ms

instance (jobs : List (List (Nat × Nat))) (start : Nat → Nat → Nat) :
    Decidable (jobShopPrec jobs start) := by
  unfold jobShopPrec; infer_instance

instance (jobs : List (List (Nat × Nat))) (numMachines : Nat)
    (start : Nat → Nat → Nat) (z : Nat × Nat → Nat × Nat → Bool) :
    Decidable (jobShopDisj jobs numMachines start z) := by
  unfold jobShopDisj; infer_instance

instance (jobs : List (List (Nat × Nat))) (start : Nat → Nat → Nat) (ms : Nat) :
    Decidable (jobShopMakespan jobs start ms) := by
  unfold jobShopMakespan; infer_instance

instance (jobs : List (List (Nat × Nat))) (numMachines : Nat)
    (start : Nat → Nat → Nat) (z : Nat × Nat → Nat × Nat → Bool) (ms : Nat) :
    Decidable (JobShopFeasible jobs numMachines start z ms) := by
  unfold JobShopFeasible; infer_instance

/-- Two half-open execution intervals `[s, s + d)` do not overlap. -/
def noOverlap (s1 d1 s2 d2 : Nat) : Prop :=
  s1 + d1 ≤ s2 ∨ s2 + d2 ≤ s1

instance (s1 d1 s2 d2 : Nat) : Decidable (noOverlap s1 d1 s2 d2) := by
  unfold noOverlap; infer_instance

/-- C1.  Any assignment satisfying all constraints of the built job-shop model
yields, for every machine, pairwise non-overlapping execution intervals
`[start, start + duration)` over the tasks assigned to that machine. -/
theorem jobShop_feasible_no_overlap
    (jobs : List (List (Nat × Nat))) (numMachines : Nat)
    (start : Nat → Nat → Nat) (z : Nat × Nat → Nat × Nat → Bool) (ms : Nat)
    (hfeas : JobShopFeasible jobs numMachines start z ms) :
    ∀ m < numMachines, ∀ j < (machineTasks jobs m).length, ∀ i < j,
      noOverlap (start ((machineTasks jobs m).getD i (0, 0, 0)).1
                       ((machineTasks jobs m).getD i (0, 0, 0)).2.1)
                ((machineTasks jobs m).getD i (0, 0, 0)).2.2
                (start ((machineTasks jobs m).getD j (0, 0, 0)).1
                       ((machineTasks jobs m).getD j (0, 0, 0)).2.1)
                ((machineTasks jobs m).getD j (0, 0, 0)).2.2 := by
  intro m hm j hj i hij
  obtain ⟨-, hdisj, -⟩ := hfeas
  have h := hdisj m hm j hj i hij
  unfold disjPair at h
  obtain ⟨h1, h2⟩ := h
  by_cases hz : z (((machineTasks jobs m).getD i (0, 0, 0)).1,
      ((machineTasks jobs m).getD i (0, 0, 0)).2.1)
      (((machineTasks jobs m).getD j (0, 0, 0)).1,
      ((machineTasks jobs m).getD j (0, 0, 0)).2.1) = true
  · left
    rw [if_pos hz] at h1
    simpa using h1
  · right
    rw [if_neg hz] at h2
    simpa using h2

/-- Witness for C1 on a concrete instance: two single-task jobs on one machine,
scheduled sequentially. -/
theorem jobShop_feasible_no_overlap_witness :
    JobShopFeasible [[(0, 1)], [(0, 1)]] 1 (fun jid _ => jid)
      (fun p q => decide (p.1 < q.1)) 2 ∧
    noOverlap ((fun (jid : Nat) (_ : Nat) => jid)
        ((machineTasks [[(0, 1)], [(0, 1)]] 0).getD 0 (0, 0, 0)).1
        ((machineTasks [[(0, 1)], [(0, 1)]] 0).getD 0 (0, 0, 0)).2.1)
      ((machineTasks [[(0, 1)], [(0, 1)]] 0).getD 0 (0, 0, 0)).2.2
      ((fun (jid : Nat) (_ : Nat) => jid)
        ((machineTasks [[(0, 1)], [(0, 1)]] 0).getD 1 (0, 0, 0)).1
        ((machineTasks [[(0, 1)], [(0, 1)]] 0).getD 1 (0, 0, 0)).2.1)
      ((machineTasks [[(0, 1)], [(0, 1)]] 0).getD 1 (0, 0, 0)).2.2 :=
  ⟨by decide,
   jobShop_feasible_no_overlap [[(0, 1)], [(0, 1)]] 1 (fun jid _ => jid)
     (fun p q => decide (p.1 < q.1)) 2 (by decide) 0 (by decide) 1 (by decide) 0
     (by decide)⟩

/-! ### Horizon bound (C4)

The horizon is the sum of all task durations.  Scheduling every task
sequentially in job-major order is feasible for the built model and completes
by the horizon, so the horizon dominates the optimal makespan.
-/

/-- Total duration of one job. -/
def jobDur (job : List (Nat × Nat)) : Nat := (job.map Prod.snd).sum

/-- Start time of task `(jid, tid)` in the sequential job-major schedule. -/
def seqStart (jobs : List (List (Nat × Nat))) (jid tid : Nat) : Nat :=
  ((jobs.take jid).map jobDur).sum + (((jobs.getD jid []).take tid).map Prod.snd).sum

lemma horizon_eq_sum_jobDur (jobs : List (List (Nat × Nat))) :
    horizon jobs = (jobs.map jobDur).sum := by
  unfold horizon jobDur
  rw [List.map_flatten, List.sum_flatten, List.map_map]
  rfl

lemma sum_map_take_le {α : Type} (f : α → Nat) (l : List α) (k : Nat) :
    ((l.take k).map f).sum ≤ (l.map f).sum := by
  conv_rhs => rw [← List.take_append_drop k l]
  rw [List.map_append, List.sum_append]
  exact Nat.le_add_right _ _

lemma sum_map_take_mono {α : Type} (f : α → Nat) (l : List α) {a b : Nat} (h : a ≤ b) :
    ((l.take a).map f).sum ≤ ((l.take b).map f).sum := by
  obtain ⟨k, rfl⟩ := Nat.exists_eq_add_of_le h
  rw [List.take_add, List.map_append, List.sum_append]
  exact Nat.le_add_right _ _

lemma sum_map_take_succ {α : Type} (f : α → Nat) (l : List α) (i : Nat)
    (h : i < l.length) :
    ((l.take (i + 1)).map f).sum = ((l.take i).map f).sum + f l[i] := by
  rw [List.map_take, List.map_take,
    List.sum_take_succ (l.map f) i (by simpa using h), List.getElem_map]

lemma seqStart_take_succ (jobs : List (List (Nat × Nat))) {jid tid : Nat}
    (ht : tid < (jobs.getD jid []).length) :
    seqStart jobs jid tid + ((jobs.getD jid []).getD tid (0, 0)).2 =
      ((jobs.take jid).map jobDur).sum +
        (((jobs.getD jid []).take (tid + 1)).map Prod.snd).sum := by
  unfold seqStart
  rw [List.getD_eq_getElem _ _ ht, Nat.add_assoc,
    ← sum_map_take_succ Prod.snd (jobs.getD jid []) tid ht]

lemma prefixDur_take_succ (jobs : List (List (Nat × Nat))) {jid : Nat}
    (hj : jid < jobs.length) :
    ((jobs.take (jid + 1)).map jobDur).sum =
      ((jobs.take jid).map jobDur).sum + jobDur (jobs.getD jid []) := by
  rw [sum_map_take_succ jobDur jobs jid hj, List.getD_eq_getElem _ _ hj]

lemma seqStart_add_le_horizon (jobs : List (List (Nat × Nat))) {jid tid : Nat}
    (hj : jid < jobs.length) (ht : tid < (jobs.getD jid []).length) :
    seqStart jobs jid tid + ((jobs.getD jid []).getD tid (0, 0)).2 ≤ horizon jobs := by
  rw [seqStart_take_succ jobs ht]
  calc ((jobs.take jid).map jobDur).sum +
        (((jobs.getD jid []).take (tid + 1)).map Prod.snd).sum
      ≤ ((jobs.take jid).map jobDur).sum + jobDur (jobs.getD jid []) :=
        Nat.add_le_add_left (sum_map_take_le _ _ _) _
    _ = ((jobs.take (jid + 1)).map jobDur).sum := (prefixDur_take_succ jobs hj).symm
    _ ≤ (jobs.map jobDur).sum := sum_map_take_le _ _ _
    _ = horizon jobs := (horizon_eq_sum_jobDur jobs).symm

lemma seqStart_succ (jobs : List (List (Nat × Nat))) {jid tid : Nat}
    (ht : tid < (jobs.getD jid []).length) :
    seqStart jobs jid (tid + 1) =
      seqStart jobs jid tid + ((jobs.getD jid []).getD tid (0, 0)).2 := by
  rw [seqStart_take_succ jobs ht]
  rfl

lemma seqStart_mono (jobs : List (List (Nat × Nat))) {jid1 tid1 jid2 tid2 : Nat}
    (hj1 : jid1 < jobs.length) (ht1 : tid1 < (jobs.getD jid1 []).length)
    (hlex : jid1 < jid2 ∨ (jid1 = jid2 ∧ tid1 < tid2)) :
    seqStart jobs jid1 tid1 + ((jobs.getD jid1 []).getD tid1 (0, 0)).2 ≤
      seqStart jobs jid2 tid2 := by
  rcases hlex with hlt | ⟨rfl, hlt⟩
  · have h1 : seqStart jobs jid1 tid1 + ((jobs.getD jid1 []).getD tid1 (0, 0)).2 ≤
        ((jobs.take (jid1 + 1)).map jobDur).sum := by
      rw [seqStart_take_succ jobs ht1, prefixDur_take_succ jobs hj1]
      exact Nat.add_le_add_left (sum_map_take_le _ _ _) _
    have h2 : ((jobs.take (jid1 + 1)).map jobDur).sum ≤
        ((jobs.take jid2).map jobDur).sum := sum_map_take_mono _ _ hlt
    exact le_trans h1 (le_trans h2 (Nat.le_add_right _ _))
  · rw [seqStart_take_succ jobs ht1]
    exact Nat.add_le_add_left (sum_map_take_mono _ _ hlt) _

lemma mem_machineTasks {jobs : List (List (Nat × Nat))} {m : Nat}
    {e : Nat × Nat × Nat} (he : e ∈ machineTasks jobs m) :
    e.1 < jobs.length ∧ e.2.1 < (jobs.getD e.1 []).length ∧
      (jobs.getD e.1 []).getD e.2.1 (0, 0) = (m, e.2.2) := by
  unfold machineTasks at he
  rw [List.mem_flatten] at he
  obtain ⟨l, hl, hel⟩ := he
  rw [List.mem_map] at hl
  obtain ⟨jp, hjp, rfl⟩ := hl
  rw [List.mem_filterMap] at hel
  obtain ⟨tp, htp, hsome⟩ := hel
  obtain ⟨hjlen, hjeq⟩ := List.mem_enum hjp
  obtain ⟨htlen, hteq⟩ := List.mem_enum htp
  have hx : jobs.getD jp.1 [] = jp.2 := by
    rw [List.getD_eq_getElem _ _ hjlen]
    exact hjeq.symm
  by_cases hcond : tp.2.1 = m
  · rw [if_pos hcond] at hsome
    obtain rfl := Option.some_injective _ hsome
    refine ⟨hjlen, ?_, ?_⟩
    · rw [hx]
      exact htlen
    · rw [hx, List.getD_eq_getElem _ _ htlen, ← hteq, ← hcond]
  · rw [if_neg hcond] at hsome
    exact absurd hsome (by simp)

lemma fst_of_mem_taskFilter {jid m : Nat} {job : List (Nat × Nat)}
    {x : Nat × Nat × Nat}
    (hx : x ∈ job.enum.filterMap
      (fun tp => if tp.2.1 = m then some (jid, tp.1, tp.2.2) else none)) :
    x.1 = jid := by
  rw [List.mem_filterMap] at hx
  obtain ⟨tp, -, hsome⟩ := hx
  by_cases hcond : tp.2.1 = m
  · rw [if_pos hcond] at hsome
    obtain rfl := Option.some_injective _ hsome
    rfl
  · rw [if_neg hcond] at hsome
    exact absurd hsome (by simp)

lemma snd_fst_of_mem_taskFilter {jid m : Nat} {job : List (Nat × Nat)}
    {x : Nat × Nat × Nat}
    (hx : x ∈ job.enum.filterMap
      (fun tp => if tp.2.1 = m then some (jid, tp.1, tp.2.2) else none)) :
    ∃ tp ∈ job.enum, x.2.1 = tp.1 := by
  rw [List.mem_filterMap] at hx
  obtain ⟨tp, htp, hsome⟩ := hx
  by_cases hcond : tp.2.1 = m
  · rw [if_pos hcond] at hsome
    obtain rfl := Option.some_injective _ hsome
    exact ⟨tp, htp, rfl⟩
  · rw [if_neg hcond] at hsome
    exact absurd hsome (by simp)

lemma enumFrom_pairwise {α : Type} (n : Nat) (l : List α) :
    (List.enumFrom n l).Pairwise (fun a b => a.1 < b.1) := by
  induction l generalizing n with
  | nil => simp
  | cons x xs ih =>
    rw [List.enumFrom_cons]
    refine List.Pairwise.cons ?_ (ih (n + 1))
    intro b hb
    have hmem : (b.1, b.2) ∈ List.enumFrom (n + 1) xs := by simpa using hb
    have := (List.mem_enumFrom hmem).1
    omega

lemma machineTasks_pairwise (jobs : List (List (Nat × Nat))) (m : Nat) :
    (machineTasks jobs m).Pairwise
      (fun a b => a.1 < b.1 ∨ (a.1 = b.1 ∧ a.2.1 < b.2.1)) := by
  unfold machineTasks
  rw [List.pairwise_flatten]
  constructor
  · intro l hl
    rw [List.mem_map] at hl
    obtain ⟨jp, -, rfl⟩ := hl
    rw [List.pairwise_filterMap]
    refine (enumFrom_pairwise 0 jp.2).imp ?_
    intro a b hab x hx y hy
    by_cases hca : a.2.1 = m
    · rw [if_pos hca, Option.mem_def] at hx
      obtain rfl := Option.some_injective _ hx.symm
      by_cases hcb : b.2.1 = m
      · rw [if_pos hcb, Option.mem_def] at hy
        obtain rfl := Option.some_injective _ hy.symm
        exact Or.inr ⟨rfl, hab⟩
      · rw [if_neg hcb] at hy
        exact absurd hy (by simp)
    · rw [if_neg hca] at hx
      exact absurd hx (by simp)
  · rw [List.pairwise_map]
    refine (enumFrom_pairwise 0 jobs).imp ?_
    intro a b hab x hx y hy
    exact Or.inl (by rw [fst_of_mem_taskFilter hx, fst_of_mem_taskFilter hy]; exact hab)

lemma machineTasks_getD_lex (jobs : List (List (Nat × Nat))) (m : Nat) {i j : Nat}
    (hj : j < (machineTasks jobs m).length) (hij : i < j) :
    ((machineTasks jobs m).getD i (0, 0, 0)).1 <
        ((machineTasks jobs m).getD j (0, 0, 0)).1 ∨
      (((machineTasks jobs m).getD i (0, 0, 0)).1 =
          ((machineTasks jobs m).getD j (0, 0, 0)).1 ∧
        ((machineTasks jobs m).getD i (0, 0, 0)).2.1 <
          ((machineTasks jobs m).getD j (0, 0, 0)).2.1) := by
  have hi : i < (machineTasks jobs m).length := lt_trans hij hj
  have h := List.pairwise_iff_get.mp (machineTasks_pairwise jobs m) ⟨i, hi⟩ ⟨j, hj⟩ hij
  rwa [List.getD_eq_getElem _ _ hi, List.getD_eq_getElem _ _ hj]

/-- C4.  The big-M horizon equals the sum of all task durations over all jobs,
and it bounds the total completion time: the sequential job-major schedule
satisfies every constraint of the built model with makespan at most the
horizon, so the horizon dominates the optimal (minimal feasible) makespan. -/
theorem jobShop_horizon_dominates (jobs : List (List (Nat × Nat))) (numMachines : Nat) :
    horizon jobs = (jobs.map (fun job => (job.map Prod.snd).sum)).sum ∧
    ∃ start z ms, JobShopFeasible jobs numMachines start z ms ∧ ms ≤ horizon jobs := by
  refine ⟨horizon_eq_sum_jobDur jobs, seqStart jobs,
    (fun p q => decide (p.1 < q.1 ∨ (p.1 = q.1 ∧ p.2 < q.2))), horizon jobs,
    ⟨?_, ?_, ?_⟩, le_refl _⟩
  · -- precedence
    intro jid hjid tid htid
    have ht : tid < (jobs.getD jid []).length := by omega
    rw [seqStart_succ jobs ht]
  · -- disjunctive
    intro m hm j hj i hij
    have hi : i < (machineTasks jobs m).length := lt_trans hij hj
    have he1 : (machineTasks jobs m).getD i (0, 0, 0) ∈ machineTasks jobs m := by
      rw [List.getD_eq_getElem _ _ hi]; exact List.getElem_mem _
    have he2 : (machineTasks jobs m).getD j (0, 0, 0) ∈ machineTasks jobs m := by
      rw [List.getD_eq_getElem _ _ hj]; exact List.getElem_mem _
    obtain ⟨hj1, ht1, hd1⟩ := mem_machineTasks he1
    obtain ⟨hj2, ht2, hd2⟩ := mem_machineTasks he2
    have hlex := machineTasks_getD_lex jobs m hj hij
    constructor
    · rw [if_pos (decide_eq_true hlex)]
      simp only [Nat.sub_self, Nat.mul_zero, Nat.add_zero]
      have := seqStart_mono jobs hj1 ht1 hlex
      rwa [hd1] at this
    · rw [if_pos (decide_eq_true hlex)]
      simp only [Nat.mul_one]
      have h := seqStart_add_le_horizon jobs hj2 ht2
      rw [hd2] at h
      exact le_trans h (Nat.le_add_left _ _)
  · -- makespan
    intro jid hjid hlen
    exact seqStart_add_le_horizon jobs hjid (by omega)

/-! ### Job shop decoding (src/JobShop.py lines 121-130)

After an OPTIMAL solve the schedule is extracted by appending, for every job
and task, the row `(job_id, task_id, solved start, duration)` to its machine's
list, then sorting each machine's list by solved start time.  Solved start
values are modelled as rationals.
-/

/-- Rows appended to machine `m`'s schedule list (lines 122-126), in job-major
order. -/
def machineRows (jobs : List (List (Nat × Nat))) (startVal : Nat → Nat → ℚ)
    (m : Nat) : List (Nat × Nat × ℚ × Nat) :=
  (jobs.enum.map (fun jp =>
    jp.2.enum.filterMap (fun tp =>
      if tp.2.1 = m then some (jp.1, tp.1, startVal jp.1 tp.1, tp.2.2) else none))).flatten

/-- Full decode (lines 122-130): for every machine in `range(num_machines)`,
its rows sorted ascending by solved start time.  The decode is a total
function: it performs no verification of any kind on the rows. -/
def decodeSchedule (jobs : List (List (Nat × Nat))) (numMachines : Nat)
    (startVal : Nat → Nat → ℚ) : List (List (Nat × Nat × ℚ × Nat)) :=
  (List.range numMachines).map (fun m =>
    (machineRows jobs startVal m).mergeSort (fun a b => decide (a.2.2.1 ≤ b.2.2.1)))

/-- The execution intervals `[start, start + duration)` of a list of decoded
rows are pairwise non-overlapping. -/
def rowsNoOverlap (l : List (Nat × Nat × ℚ × Nat)) : Prop :=
  l.Pairwise (fun a b =>
    a.2.2.1 + (a.2.2.2 : ℚ) ≤ b.2.2.1 ∨ b.2.2.1 + (b.2.2.2 : ℚ) ≤ a.2.2.1)

/-- C8 counterexample.  The decoder performs no overlap verification: fed
solved start times that put two duration-2 tasks of machine 0 both at time 0,
it returns their rows unchanged (sorted), and the returned machine-0 schedule
has overlapping intervals — no sanity check rejects it. -/
theorem jobShop_decode_no_check_cex :
    ¬ rowsNoOverlap ((decodeSchedule [[(0, 2)], [(0, 2)]] 1 (fun _ _ => 0)).getD 0 []) := by
  have hperm : ((decodeSchedule [[(0, 2)], [(0, 2)]] 1 (fun _ _ => 0)).getD 0 []).Perm
      (machineRows [[(0, 2)], [(0, 2)]] (fun _ _ => 0) 0) := by
    unfold decodeSchedule
    exact List.mergeSort_perm _ _
  have hrows : machineRows [[(0, 2)], [(0, 2)]] (fun _ _ => 0) 0 =
      [(0, 0, (0 : ℚ), 2), (1, 0, (0 : ℚ), 2)] := rfl
  intro hno
  have hsymm : ∀ {a b : Nat × Nat × ℚ × Nat},
      (a.2.2.1 + (a.2.2.2 : ℚ) ≤ b.2.2.1 ∨ b.2.2.1 + (b.2.2.2 : ℚ) ≤ a.2.2.1) →
      (b.2.2.1 + (b.2.2.2 : ℚ) ≤ a.2.2.1 ∨ a.2.2.1 + (a.2.2.2 : ℚ) ≤ b.2.2.1) :=
    fun h => h.symm
  have h2 := (List.Perm.pairwise_iff hsymm hperm).mp hno
  rw [hrows] at h2
  rcases List.pairwise_cons.mp h2 with ⟨hfst, -⟩
  have := hfst (1, 0, (0 : ℚ), 2) (by simp)
  rcases this with h | h <;> norm_num at h

/-- C8 amended.  The decoder only groups rows by machine and sorts each
machine's list ascending by solved start time; it verifies nothing: the
decoded list for machine `m` is exactly a permutation of machine `m`'s rows,
sorted by start time, whatever those rows contain. -/
theorem jobShop_decode_group_sort (jobs : List (List (Nat × Nat)))
    (numMachines : Nat) (startVal : Nat → Nat → ℚ) :
    ∀ m < numMachines,
      ((decodeSchedule jobs numMachines startVal).getD m []).Perm
          (machineRows jobs startVal m) ∧
        ((decodeSchedule jobs numMachines startVal).getD m []).Pairwise
          (fun a b => a.2.2.1 ≤ b.2.2.1) := by
  intro m hm
  have hget : (decodeSchedule jobs numMachines startVal).getD m [] =
      (machineRows jobs startVal m).mergeSort (fun a b => decide (a.2.2.1 ≤ b.2.2.1)) := by
    unfold decodeSchedule
    rw [List.getD_eq_getElem _ _ (by simpa using hm), List.getElem_map,
      List.getElem_range]
  rw [hget]
  refine ⟨List.mergeSort_perm _ _, ?_⟩
  have hs := @List.sorted_mergeSort (Nat × Nat × ℚ × Nat)
    (fun a b => decide (a.2.2.1 ≤ b.2.2.1))
    (fun a b c hab hbc => by
      simp only [decide_eq_true_eq] at hab hbc ⊢
      exact le_trans hab hbc)
    (fun a b => by
      simp only [Bool.or_eq_true, decide_eq_true_eq]
      exact le_total _ _)
    (machineRows jobs startVal m)
  exact hs.imp (fun h => by simpa using h)

/-- Witness for C8's amended theorem at a concrete machine index. -/
theorem jobShop_decode_group_sort_witness :
    0 < 1 ∧
      (((decodeSchedule [[(0, 2)], [(0, 2)]] 1 (fun _ _ => 0)).getD 0 []).Perm
          (machineRows [[(0, 2)], [(0, 2)]] (fun _ _ => 0) 0) ∧
        ((decodeSchedule [[(0, 2)], [(0, 2)]] 1 (fun _ _ => 0)).getD 0 []).Pairwise
          (fun a b => a.2.2.1 ≤ b.2.2.1)) :=
  ⟨by decide,
   jobShop_decode_group_sort [[(0, 2)], [(0, 2)]] 1 (fun _ _ => 0) 0 (by decide)⟩

/-! ### Allocation family (src/BudgetAllocation.py and src/pages/BudgetAllocation.py)

Solved values of the continuous per-project variables are rationals; Gurobi's
default lower bound 0 applies to every variable.
-/

/-- Priority-to-weight rule (BudgetAllocation.py line 64, applied to project
priorities; pages/BudgetAllocation.py line 81, applied to resource
priorities): `1 if p == 1 else 0.8 if p == 2 else 0.5`. -/
def priorityWeight (p : Nat) : ℚ :=
  if p = 1 then 1 else if p = 2 then 8 / 10 else 5 / 10

/-- Objective of the single-resource variant (BudgetAllocation.py lines 67-69):
maximize `sum(project_returns[i] * priority_weights[i] * x[i])`. -/
def allocObjective (n : Nat) (returns : List ℚ) (priorities : List Nat)
    (x : Nat → ℚ) : ℚ :=
  ((List.range n).map
    (fun i => returns.getD i 0 * priorityWeight (priorities.getD i 0) * x i)).sum

/-- Objective of the multi-resource variant (pages/BudgetAllocation.py lines
84-86): maximize `sum(project_returns[i] * x[i])` — the `resource_weights`
computed on line 81 appear nowhere in the model. -/
def allocObjectiveMulti (n : Nat) (returns : List ℚ) (x : Nat → ℚ) : ℚ :=
  ((List.range n).map (fun i => returns.getD i 0 * x i)).sum

/-- Modelled from the spec's words (§4.1): "maximize the sum of (unit return ×
priority weight × units)" with the weight rule `{1 → 1.0, 2 → 0.8, ≥3 → 0.5}`.
Used to compare both code objectives against the specified one. -/
def specWeightedObjective (n : Nat) (returns : List ℚ) (priorities : List Nat)
    (x : Nat → ℚ) : ℚ :=
  ((List.range n).map
    (fun i => returns.getD i 0 * priorityWeight (priorities.getD i 0) * x i)).sum

/-- Constraints of the single-resource variant (BudgetAllocation.py lines
73-81): total cost within the budget, per-project minimum and maximum units,
and the default lower bound 0 on each variable. -/
def allocFeasible (n : Nat) (costs minUnits maxUnits : List ℚ) (total : ℚ)
    (x : Nat → ℚ) : Prop :=
  ((List.range n).map (fun i => costs.getD i 0 * x i)).sum ≤ total ∧
  ∀ i < n, 0 ≤ x i ∧ minUnits.getD i 0 ≤ x i ∧ x i ≤ maxUnits.getD i 0

/-- Solver statuses distinguished by the apps: Gurobi's OPTIMAL, INFEASIBLE,
or anything else. -/
inductive SolveStatus where
  | optimal
  | infeasible
  | other
deriving DecidableEq

/-- Allocation decode (BudgetAllocation.py lines 92-108): the allocation table
rows `(cost, return, allocated units, min, max)` are produced only when the
status is OPTIMAL; every other status yields no table. -/
def decodeAllocation (n : Nat) (costs returns minUnits maxUnits : List ℚ)
    (st : SolveStatus) (xVal : Nat → ℚ) :
    Option (List (ℚ × ℚ × ℚ × ℚ × ℚ)) :=
  match st with
  | SolveStatus.optimal => some ((List.range n).map (fun i =>
      (costs.getD i 0, returns.getD i 0, xVal i,
        minUnits.getD i 0, maxUnits.getD i 0)))
  | _ => none

/-- C3 counterexample.  The multi-resource variant's objective is not the
priority-weighted sum the claim describes: with one project of return 10,
priority 2 and one allocated unit, the built objective values it at 10 while
the weighted formula gives 8. -/
theorem alloc_multi_objective_unweighted_cex :
    allocObjectiveMulti 1 [10] (fun _ => 1) = 10 ∧
    specWeightedObjective 1 [10] [2] (fun _ => 1) = 8 ∧
    allocObjectiveMulti 1 [10] (fun _ => 1) ≠
      specWeightedObjective 1 [10] [2] (fun _ => 1) := by
  refine ⟨?_, ?_, ?_⟩ <;>
    norm_num [allocObjectiveMulti, specWeightedObjective, priorityWeight,
      List.range_succ]

/-- C3 amended.  Only the single-resource variant maximizes the sum of
(unit return × priority weight × units) with the weight rule
`{1 → 1.0, 2 → 0.8, ≥3 → 0.5}`; the multi-resource variant maximizes the
unweighted sum of (unit return × units), which coincides with the weighted
formula only when every priority weight is 1. -/
theorem alloc_objectives_amended :
    (∀ n returns priorities x,
      allocObjective n returns priorities x =
        specWeightedObjective n returns priorities x) ∧
    (∀ n returns x,
      allocObjectiveMulti n returns x =
        specWeightedObjective n returns (List.replicate n 1) x) := by
  constructor
  · intro n returns priorities x
    rfl
  · intro n returns x
    unfold allocObjectiveMulti specWeightedObjective
    congr 1
    apply List.map_congr_left
    intro i hi
    rw [List.mem_range] at hi
    have hget : (List.replicate n 1).getD i 0 = 1 := by
      rw [List.getD_eq_getElem _ _ (by simpa using hi), List.getElem_replicate]
    rw [hget]
    unfold priorityWeight
    norm_num

/-- C5.  If some project's minimum units exceed its maximum units, no
assignment satisfies the built constraints (the model is infeasible by
construction), and a non-OPTIMAL status produces no allocation table. -/
theorem alloc_min_gt_max_infeasible (n : Nat) (costs returns minUnits maxUnits : List ℚ)
    (total : ℚ) (i : Nat) (hi : i < n)
    (hgt : maxUnits.getD i 0 < minUnits.getD i 0) :
    (¬ ∃ x, allocFeasible n costs minUnits maxUnits total x) ∧
    (∀ xVal, decodeAllocation n costs returns minUnits maxUnits
      SolveStatus.infeasible xVal = none) := by
  constructor
  · rintro ⟨x, -, hbounds⟩
    obtain ⟨-, hmin, hmax⟩ := hbounds i hi
    exact absurd (le_trans hmin hmax) (not_le.mpr hgt)
  · intro xVal
    rfl

/-- Witness for C5: one project with minimum 2 and maximum 1. -/
theorem alloc_min_gt_max_infeasible_witness :
    (0 < 1 ∧ ([(1 : ℚ)].getD 0 0 < [(2 : ℚ)].getD 0 0)) ∧
    ((¬ ∃ x, allocFeasible 1 [1] [2] [1] 100 x) ∧
     (∀ xVal, decodeAllocation 1 [1] [10] [2] [1]
       SolveStatus.infeasible xVal = none)) :=
  ⟨⟨by decide, by norm_num⟩,
   alloc_min_gt_max_infeasible 1 [1] [10] [2] [1] 100 0 (by decide) (by norm_num)⟩

/-- Accepted values of the Streamlit number inputs that fix the instance size
before any model is built: "Nombre de Ressources" has `min_value=1,
max_value=5` (pages/BudgetAllocation.py line 21) and "Nombre de Projets" has
`min_value=2, max_value=10` (pages/BudgetAllocation.py line 36 and
BudgetAllocation.py line 24); the widgets refuse any value outside these
bounds. -/
def allocSizeAccepted (numResources numProjects : Nat) : Prop :=
  (1 ≤ numResources ∧ numResources ≤ 5) ∧ (2 ≤ numProjects ∧ numProjects ≤ 10)

instance (nr np : Nat) : Decidable (allocSizeAccepted nr np) := by
  unfold allocSizeAccepted; infer_instance

/-- C9.  Every instance size the input widgets accept — and hence every size
for which a model is ever constructed — has strictly positive project and
resource counts: an input with zero projects or zero resources is refused
before model construction. -/
theorem alloc_sizes_positive (numResources numProjects : Nat)
    (h : allocSizeAccepted numResources numProjects) :
    0 < numProjects ∧ 0 < numResources :=
  ⟨lt_of_lt_of_le Nat.zero_lt_two h.2.1, lt_of_lt_of_le Nat.zero_lt_one h.1.1⟩

/-- Witness for C9 at the smallest accepted sizes. -/
theorem alloc_sizes_positive_witness :
    allocSizeAccepted 1 2 ∧ (0 < 2 ∧ 0 < 1) :=
  ⟨by decide, alloc_sizes_positive 1 2 (by decide)⟩

/-! ### Binary decode thresholds (C2)

`src/facilityLocation.py` (coverage) decodes with `value > 0.5` (lines 37-38);
`src/FacilityLocation.py` decodes with `abs(value) > 1e-6` (lines 42-43).
The float constants `0.5` and `1e-6` are modelled as the rationals `1/2` and
`1/1000000`.
-/

/-- Coverage decode, line 37: `[f for f in range(num_facilities) if
select[f].x > 0.5]`. -/
def coverageSelectedFacilities (nf : Nat) (select : Nat → ℚ) : List Nat :=
  (List.range nf).filter (fun f => decide (select f > 1 / 2))

/-- Coverage decode, line 38: the pairs `(c, f)` with `f` selected and
`cover[c, f].x > 0.5`. -/
def coverageCoverPairs (nc nf : Nat) (select : Nat → ℚ)
    (cover : Nat → Nat → ℚ) : List (Nat × Nat) :=
  (List.range nc).flatMap (fun c =>
    ((coverageSelectedFacilities nf select).filter
      (fun f => decide (cover c f > 1 / 2))).map (fun f => (c, f)))

/-- The `(customer, facility)` index pairs, customer-major, as built by
`itertools.product` in FacilityLocation.py line 19. -/
def cartesianProd (nc nf : Nat) : List (Nat × Nat) :=
  (List.range nc).flatMap (fun c => (List.range nf).map (fun f => (c, f)))

/-- Facility-location decode, line 42: `[f for f in range(num_facilities) if
abs(select[f].x) > 1e-6]`. -/
def flSelectedFacilities (nf : Nat) (select : Nat → ℚ) : List Nat :=
  (List.range nf).filter (fun f => decide (|select f| > 1 / 1000000))

/-- Facility-location decode, line 43: the shipments with
`abs(assign[c, f].x) > 1e-6`. -/
def flShipments (nc nf : Nat) (assign : Nat → Nat → ℚ) :
    List ((Nat × Nat) × ℚ) :=
  (cartesianProd nc nf).filterMap (fun p =>
    if |assign p.1 p.2| > 1 / 1000000 then some (p, assign p.1 p.2) else none)

/-- C2 counterexample.  The two decode paths do not share the `> 0.5`
threshold: the facility-location decoder selects a facility whose solved value
is `0.5 - 1e-7`, because its test is `abs(value) > 1e-6`, contradicting the
claim that such a value decodes as not selected in every decode path. -/
theorem threshold_not_uniform_cex :
    0 ∈ flSelectedFacilities 1 (fun _ => 1 / 2 - 1 / 10000000) := by
  unfold flSelectedFacilities
  rw [List.mem_filter]
  refine ⟨by simp, ?_⟩
  rw [decide_eq_true_eq]
  rw [abs_of_pos (by norm_num)]
  norm_num

/-- C2 amended.  The coverage decoder selects exactly at `value > 0.5` (so
`0.5 + 1e-7` is selected and `0.5 - 1e-7` is not), while the facility-location
decoder selects exactly at `abs(value) > 1e-6` (so both `0.5 + 1e-7` and
`0.5 - 1e-7` are selected): the threshold is not uniform across the two
decode paths. -/
theorem threshold_decoders_amended :
    (0 ∈ coverageSelectedFacilities 1 (fun _ => 1 / 2 + 1 / 10000000)) ∧
    (0 ∉ coverageSelectedFacilities 1 (fun _ => 1 / 2 - 1 / 10000000)) ∧
    (0 ∈ flSelectedFacilities 1 (fun _ => 1 / 2 + 1 / 10000000)) ∧
    (0 ∈ flSelectedFacilities 1 (fun _ => 1 / 2 - 1 / 10000000)) ∧
    (∀ v : ℚ,
      (0 ∈ coverageSelectedFacilities 1 (fun _ => v) ↔ v > 1 / 2) ∧
      (0 ∈ flSelectedFacilities 1 (fun _ => v) ↔ |v| > 1 / 1000000)) := by
  have hmem : ∀ v : ℚ,
      (0 ∈ coverageSelectedFacilities 1 (fun _ => v) ↔ v > 1 / 2) ∧
      (0 ∈ flSelectedFacilities 1 (fun _ => v) ↔ |v| > 1 / 1000000) := by
    intro v
    constructor
    · unfold coverageSelectedFacilities
      rw [List.mem_filter, decide_eq_true_eq]
      simp
    · unfold flSelectedFacilities
      rw [List.mem_filter, decide_eq_true_eq]
      simp
  refine ⟨?_, ?_, ?_, ?_, hmem⟩
  · rw [(hmem _).1]
    norm_num
  · rw [(hmem _).1]
    norm_num
  · rw [(hmem _).2]
    rw [abs_of_pos (by norm_num)]
    norm_num
  · rw [(hmem _).2]
    rw [abs_of_pos (by norm_num)]
    norm_num

/-! ### Coverage model (src/facilityLocation.py, C7)

`solve_coverage_optimization(customers, facilities, radii)` builds the model
from the list lengths alone; the radii parameter is never consulted by the
formulation or the decode (it is used only by the plotting function).
-/

/-- The built coverage model: variable counts, constraint set and objective,
as created on lines 17-31.  All variables are binary; each customer's cover
row sums to 1; a cover pair requires its facility selected; the objective is
the number of selected facilities. -/
structure CoverageModel where
  numSelectVars : Nat
  numCoverVars : Nat × Nat
  feasible : (Nat → ℚ) → (Nat → Nat → ℚ) → Prop
  objective : (Nat → ℚ) → ℚ

/-- Model construction from `solve_coverage_optimization`'s inputs (lines
12-31).  The `radii` argument is accepted, as in the source signature, and
never used. -/
def buildCoverageModel (customers facilities : List (ℚ × ℚ)) (radii : List ℚ) :
    CoverageModel where
  numSelectVars := facilities.length
  numCoverVars := (customers.length, facilities.length)
  feasible := fun select cover =>
    (∀ f < facilities.length, select f = 0 ∨ select f = 1) ∧
    (∀ c < customers.length, ∀ f < facilities.length,
      cover c f = 0 ∨ cover c f = 1) ∧
    (∀ c < customers.length,
      ((List.range facilities.length).map (fun f => cover c f)).sum = 1) ∧
    (∀ c < customers.length, ∀ f < facilities.length, cover c f ≤ select f)
  objective := fun select =>
    ((List.range facilities.length).map (fun f => select f)).sum

/-- Decode of `solve_coverage_optimization` (lines 37-40), with the same
inputs in scope as in the source function; radii again unused. -/
def decodeCoverageResult (customers facilities : List (ℚ × ℚ)) (radii : List ℚ)
    (select : Nat → ℚ) (cover : Nat → Nat → ℚ) : List Nat × List (Nat × Nat) :=
  (coverageSelectedFacilities facilities.length select,
   coverageCoverPairs customers.length facilities.length select cover)

/-- C7.  Two coverage inputs that differ only in the per-customer radii yield
literally the same built model (variables, constraints, objective) and the
same decoded selected facilities and coverage pairs. -/
theorem coverage_radii_irrelevant (customers facilities : List (ℚ × ℚ))
    (radii1 radii2 : List ℚ) (select : Nat → ℚ) (cover : Nat → Nat → ℚ) :
    buildCoverageModel customers facilities radii1 =
        buildCoverageModel customers facilities radii2 ∧
      decodeCoverageResult customers facilities radii1 select cover =
        decodeCoverageResult customers facilities radii2 select cover :=
  ⟨rfl, rfl⟩

/-! ### Facility-location model (src/FacilityLocation.py, C6)

Coordinates, costs and solved values are reals here, since the shipping cost
involves a Euclidean square root.
-/

/-- Euclidean distance (`compute_distance`, lines 10-13):
`sqrt(dx*dx + dy*dy)`. -/
noncomputable def compute_distance (loc1 loc2 : ℝ × ℝ) : ℝ :=
  Real.sqrt ((loc1.1 - loc2.1) * (loc1.1 - loc2.1) +
    (loc1.2 - loc2.2) * (loc1.2 - loc2.2))

/-- Shipping-cost matrix entry (line 22):
`cost_per_mile * compute_distance(customers[c], facilities[f])`. -/
noncomputable def shipping_cost (customers facilities : List (ℝ × ℝ))
    (rate : ℝ) (c f : Nat) : ℝ :=
  rate * compute_distance (customers.getD c (0, 0)) (facilities.getD f (0, 0))

/-- Constraints of the built facility-location model (lines 28-33): binary
selection variables, assignment variables in `[0, 1]` (declared `ub=1` with
the default lower bound 0), `assign[(c, f)] <= select[f]` over the cartesian
product, and each customer's assignments summing to 1. -/
def flFeasible (nc nf : Nat) (select : Nat → ℝ) (assign : Nat → Nat → ℝ) : Prop :=
  (∀ f < nf, select f = 0 ∨ select f = 1) ∧
  (∀ p ∈ cartesianProd nc nf, 0 ≤ assign p.1 p.2 ∧ assign p.1 p.2 ≤ 1) ∧
  (∀ p ∈ cartesianProd nc nf, assign p.1 p.2 ≤ select p.2) ∧
  (∀ c < nc, ((List.range nf).map (fun f => assign c f)).sum = 1)

/-- Objective of the built model (line 36): total setup cost
`select.prod(setup_cost)` plus total shipping cost `assign.prod(shipping_cost)`. -/
noncomputable def flObjective (customers facilities : List (ℝ × ℝ))
    (setupCost : List ℝ) (rate : ℝ) (select : Nat → ℝ)
    (assign : Nat → Nat → ℝ) : ℝ :=
  ((List.range facilities.length).map (fun f => setupCost.getD f 0 * select f)).sum +
  ((cartesianProd customers.length facilities.length).map
    (fun p => shipping_cost customers facilities rate p.1 p.2 * assign p.1 p.2)).sum

/-- Modelled from the spec's words (§4.2): constraints `fraction[c][f] ≤
selected[f]` for every pair, fractions in `[0, 1]`, and full demand coverage
`sum_f fraction[c][f] = 1` per customer, with binary selection. -/
def flSpecFeasible (nc nf : Nat) (select : Nat → ℝ)
    (assign : Nat → Nat → ℝ) : Prop :=
  (∀ f < nf, select f = 0 ∨ select f = 1) ∧
  (∀ c < nc, ∀ f < nf, 0 ≤ assign c f ∧ assign c f ≤ 1) ∧
  (∀ c < nc, ∀ f < nf, assign c f ≤ select f) ∧
  (∀ c < nc, ((List.range nf).map (fun f => assign c f)).sum = 1)

/-- Modelled from the spec's words (§4.2): minimize total setup cost plus
total shipping cost, where the shipping cost of a pair is
`rate × euclidean_distance(customer_c, facility_f)`. -/
noncomputable def flSpecObjective (customers facilities : List (ℝ × ℝ))
    (setupCost : List ℝ) (rate : ℝ) (select : Nat → ℝ)
    (assign : Nat → Nat → ℝ) : ℝ :=
  ((List.range facilities.length).map (fun f => setupCost.getD f 0 * select f)).sum +
  ((List.range customers.length).map (fun c =>
    ((List.range facilities.length).map (fun f =>
      rate * compute_distance (customers.getD c (0, 0)) (facilities.getD f (0, 0)) *
        assign c f)).sum)).sum

lemma sum_flatMap_eq {α M : Type} [AddMonoid M] (l : List α) (f : α → List M) :
    (l.flatMap f).sum = (l.map (fun a => (f a).sum)).sum := by
  induction l with
  | nil => rfl
  | cons a t ih =>
    rw [List.flatMap_cons, List.sum_append, ih, List.map_cons, List.sum_cons]

lemma mem_cartesianProd {nc nf : Nat} {p : Nat × Nat} :
    p ∈ cartesianProd nc nf ↔ p.1 < nc ∧ p.2 < nf := by
  unfold cartesianProd
  rw [List.mem_flatMap]
  constructor
  · rintro ⟨c, hc, hp⟩
    rw [List.mem_map] at hp
    obtain ⟨f, hf, rfl⟩ := hp
    rw [List.mem_range] at hc hf
    exact ⟨hc, hf⟩
  · rintro ⟨h1, h2⟩
    exact ⟨p.1, List.mem_range.mpr h1,
      List.mem_map.mpr ⟨p.2, List.mem_range.mpr h2, rfl⟩⟩

/-- C6.  The built facility-location model is exactly the one the spec
describes: the constraint set is equivalent to {fractions in [0,1], fraction
≤ selection per pair, customer fractions summing to 1, binary selection}, and
the objective equals total setup cost plus the sum over every (customer,
facility) pair of `rate × euclidean_distance × fraction`. -/
theorem facility_model_matches_spec (customers facilities : List (ℝ × ℝ))
    (setupCost : List ℝ) (rate : ℝ) (select : Nat → ℝ)
    (assign : Nat → Nat → ℝ) :
    (flFeasible customers.length facilities.length select assign ↔
      flSpecFeasible customers.length facilities.length select assign) ∧
    flObjective customers facilities setupCost rate select assign =
      flSpecObjective customers facilities setupCost rate select assign := by
  constructor
  · unfold flFeasible flSpecFeasible
    constructor
    · rintro ⟨h1, h2, h3, h4⟩
      refine ⟨h1, ?_, ?_, h4⟩
      · intro c hc f hf
        exact h2 (c, f) (mem_cartesianProd.mpr ⟨hc, hf⟩)
      · intro c hc f hf
        exact h3 (c, f) (mem_cartesianProd.mpr ⟨hc, hf⟩)
    · rintro ⟨h1, h2, h3, h4⟩
      refine ⟨h1, ?_, ?_, h4⟩
      · intro p hp
        obtain ⟨hc, hf⟩ := mem_cartesianProd.mp hp
        exact h2 p.1 hc p.2 hf
      · intro p hp
        obtain ⟨hc, hf⟩ := mem_cartesianProd.mp hp
        exact h3 p.1 hc p.2 hf
  · unfold flObjective flSpecObjective shipping_cost cartesianProd
    congr 1
    rw [List.map_flatMap, sum_flatMap_eq]
    congr 1
    apply List.map_congr_left
    intro c hc
    rw [List.map_map]
    rfl

/-! ### Resource-usage cost model (src/ScriptsOptimization.py lines 99-114, C10)

Two continuous variables (CPU and memory allocation, default lower bound 0),
objective `cost_cpu * x_cpu + cost_memory * x_memory` minimized, constraints
`x_cpu >= max_cpu*1.2`, `x_memory >= max_memory*1.2`, and the variable-free
`execution_time <= time_limit`.  The float `1.2` is modelled as `12/10`.
-/

/-- Constraint set of the built script-optimization model (lines 109-111). -/
def scriptFeasible (maxCpu maxMemory execTime timeLimit xCpu xMemory : ℚ) : Prop :=
  0 ≤ xCpu ∧ 0 ≤ xMemory ∧
  maxCpu * (12 / 10) ≤ xCpu ∧ maxMemory * (12 / 10) ≤ xMemory ∧
  execTime ≤ timeLimit

/-- Objective of the built model (line 106). -/
def scriptCost (costCpu costMemory xCpu xMemory : ℚ) : ℚ :=
  costCpu * xCpu + costMemory * xMemory

/-- C10.  With strictly positive unit costs and (nonnegative) observed peaks:
if the measured execution time is within the time limit, the allocation
`(1.2 × peak CPU, 1.2 × peak memory)` is feasible, minimizes the cost among
all feasible allocations, and is the unique minimizer; if the execution time
exceeds the limit, the variable-free time constraint makes the model
infeasible for every allocation. -/
theorem scripts_model_unique_optimum
    (costCpu costMemory maxCpu maxMemory execTime timeLimit : ℚ)
    (hc1 : 0 < costCpu) (hc2 : 0 < costMemory)
    (hm1 : 0 ≤ maxCpu) (hm2 : 0 ≤ maxMemory) :
    (execTime ≤ timeLimit →
      scriptFeasible maxCpu maxMemory execTime timeLimit
          (maxCpu * (12 / 10)) (maxMemory * (12 / 10)) ∧
        (∀ x y, scriptFeasible maxCpu maxMemory execTime timeLimit x y →
          scriptCost costCpu costMemory (maxCpu * (12 / 10)) (maxMemory * (12 / 10)) ≤
            scriptCost costCpu costMemory x y) ∧
        (∀ x y, scriptFeasible maxCpu maxMemory execTime timeLimit x y →
          scriptCost costCpu costMemory x y =
            scriptCost costCpu costMemory (maxCpu * (12 / 10)) (maxMemory * (12 / 10)) →
          x = maxCpu * (12 / 10) ∧ y = maxMemory * (12 / 10))) ∧
    (timeLimit < execTime →
      ∀ x y, ¬ scriptFeasible maxCpu maxMemory execTime timeLimit x y) := by
  constructor
  · intro htime
    refine ⟨⟨?_, ?_, le_refl _, le_refl _, htime⟩, ?_, ?_⟩
    · positivity
    · positivity
    · rintro x y ⟨-, -, hx, hy, -⟩
      unfold scriptCost
      exact add_le_add (mul_le_mul_of_nonneg_left hx hc1.le)
        (mul_le_mul_of_nonneg_left hy hc2.le)
    · rintro x y ⟨-, -, hx, hy, -⟩ heq
      unfold scriptCost at heq
      have h1 : costCpu * (maxCpu * (12 / 10)) ≤ costCpu * x :=
        mul_le_mul_of_nonneg_left hx hc1.le
      have h2 : costMemory * (maxMemory * (12 / 10)) ≤ costMemory * y :=
        mul_le_mul_of_nonneg_left hy hc2.le
      have hx' : costCpu * x = costCpu * (maxCpu * (12 / 10)) := by linarith
      have hy' : costMemory * y = costMemory * (maxMemory * (12 / 10)) := by linarith
      exact ⟨mul_left_cancel₀ hc1.ne' hx', mul_left_cancel₀ hc2.ne' hy'⟩
  · rintro htime x y ⟨-, -, -, -, habs⟩
    exact absurd habs (not_le.mpr htime)

/-- Witness for C10 at concrete measurements: unit costs 1, peaks 10 and 20,
execution time 5 within limit 6. -/
theorem scripts_model_unique_optimum_witness :
    ((0 : ℚ) < 1 ∧ (0 : ℚ) < 1 ∧ (0 : ℚ) ≤ 10 ∧ (0 : ℚ) ≤ 20) ∧
    (((5 : ℚ) ≤ 6 →
      scriptFeasible 10 20 5 6 (10 * (12 / 10)) (20 * (12 / 10)) ∧
        (∀ x y, scriptFeasible 10 20 5 6 x y →
          scriptCost 1 1 (10 * (12 / 10)) (20 * (12 / 10)) ≤ scriptCost 1 1 x y) ∧
        (∀ x y, scriptFeasible 10 20 5 6 x y →
          scriptCost 1 1 x y = scriptCost 1 1 (10 * (12 / 10)) (20 * (12 / 10)) →
          x = 10 * (12 / 10) ∧ y = 20 * (12 / 10))) ∧
      ((6 : ℚ) < 5 → ∀ x y, ¬ scriptFeasible 10 20 5 6 x y)) :=
  ⟨⟨by norm_num, by norm_num, by norm_num, by norm_num⟩,
   scripts_model_unique_optimum 1 1 10 20 5 6 (by norm_num) (by norm_num)
     (by norm_num) (by norm_num)⟩

end Optimization
